import Mathlib

/-!
Verification of the minicompiler lexer (src/src/lexer/{token,error,scanner}.rs)
against its natural-language specification.

The Rust scanner is shallowly embedded: the source text is a `List Char`,
byte offsets are `Nat`, and `usize` subtraction is modelled explicitly
(`usize_sub`): with `checked := true` an underflow yields `none` (Rust debug
builds panic on overflow), with `checked := false` it wraps modulo 2^64
(Rust release builds).  The two `.unwrap()` calls of the scanner are
modelled as genuine `Option` binds, so `next_token` returns `none` exactly
when the Rust code would raise an unrecoverable fault.
-/

-- ---------------------------------------------------------------------------
-- Definitions (token.rs, error.rs, scanner.rs)
-- ---------------------------------------------------------------------------

/-- Width of `usize` on the 64-bit targets the crate builds for. -/
def USIZE_WIDTH : Nat := 18446744073709551616

/-- Models Rust `usize` subtraction `a - b`.  When `b ≤ a` this is plain
subtraction.  On underflow, a debug build (`checked := true`) panics —
modelled by `none` — while a release build wraps modulo 2^64. -/
def usize_sub (checked : Bool) (a b : Nat) : Option Nat :=
  if b ≤ a then some (a - b)
  else if checked then none
  else some ((a + USIZE_WIDTH - b) % USIZE_WIDTH)

/-- The value `usize_sub` produces whenever it does not panic. -/
def usize_sub_val (a b : Nat) : Nat :=
  if b ≤ a then a - b else (a + USIZE_WIDTH - b) % USIZE_WIDTH

/-- UTF-8 byte length of a list of characters: models Rust `str::len`. -/
def utf8_len : List Char → Nat
  | [] => 0
  | c :: cs => c.utf8Size + utf8_len cs

/-- Byte length of a `String`: models Rust `String::len` / `str::len`. -/
def string_byte_len (s : String) : Nat := utf8_len s.data

/-- The characters of the source that lie at or after byte offset `n`:
models `&source[n..]` followed by `.chars()`.  All offsets the scanner
produces fall on character boundaries. -/
def chars_from : List Char → Nat → List Char
  | cs, 0 => cs
  | [], _ => []
  | c :: cs, n + 1 => chars_from cs (n + 1 - c.utf8Size)

/-- The characters of a byte slice of length `n` taken from the front:
together with `chars_from` this models `&source[start..current]`. -/
def take_bytes : List Char → Nat → List Char
  | _, 0 => []
  | [], _ => []
  | c :: cs, n + 1 => c :: take_bytes cs (n + 1 - c.utf8Size)

/-- `TokenType` of src/src/lexer/token.rs: every token kind of the lexer. -/
inductive TokenType where
  | If | Else | While | For | Int | Float | Bool | Return | True | False
  | Void | Struct | Fn
  | Identifier | IntLiteral | FloatLiteral | StringLiteral | BoolLiteral
  | Plus | Minus | Star | Slash | Percent | Equal | EqualEqual | NotEqual
  | Less | LessEqual | Greater | GreaterEqual | AndAnd | OrOr | Bang
  | PlusEqual | MinusEqual | StarEqual | SlashEqual
  | LParen | RParen | LBrace | RBrace | LBracket | RBracket
  | Semicolon | Comma | Colon
  | EndOfFile | Error
deriving DecidableEq, Repr

/-- `LiteralValue` of token.rs.  The `Float(f64)` payload itself is not
modelled (no claim depends on a float value); `FloatLit` records the lexeme
the value was parsed from.  `Str` is Rust's `String` variant, `NoneV` its
`None` variant. -/
inductive LiteralValue where
  | Integer (i : Int)
  | FloatLit (lexeme : String)
  | Str (s : String)
  | Boolean (b : Bool)
  | NoneV
deriving DecidableEq, Repr

/-- `Token` of token.rs. -/
structure Token where
  token_type : TokenType
  lexeme : String
  line : Nat
  column : Nat
  literal : LiteralValue
deriving DecidableEq, Repr

/-- `Token::new`. -/
def Token.new (token_type : TokenType) (lexeme : String) (line column : Nat)
    (literal : LiteralValue) : Token :=
  ⟨token_type, lexeme, line, column, literal⟩

/-- `Token::simple`: a token carrying no literal. -/
def Token.simple (token_type : TokenType) (lexeme : String)
    (line column : Nat) : Token :=
  Token.new token_type lexeme line column .NoneV

/-- `Token::error`: kind forced to `Error`, the lexeme holds the message. -/
def Token.error (lexeme : String) (line column : Nat) : Token :=
  Token.new .Error lexeme line column .NoneV

/-- `LexicalError` of src/src/lexer/error.rs. -/
inductive LexicalError where
  | InvalidCharacter (c : Char)
  | UnterminatedString
  | UnterminatedComment
  | MalformedNumber (s : String)
  | IntegerOutOfRange (s : String)
deriving DecidableEq, Repr

/-- The `Display` rendering of each error, from the `thiserror` attributes of
error.rs (`format!("{}", err)` in `Scanner::error_token`). -/
def renderError : LexicalError → String
  | .InvalidCharacter c => "invalid character: '" ++ String.mk [c] ++ "'"
  | .UnterminatedString => "unterminated string literal"
  | .UnterminatedComment => "unterminated block comment"
  | .MalformedNumber s => "malformed number: '" ++ s ++ "'"
  | .IntegerOutOfRange s => "integer literal out of range: " ++ s

/-- The scanner state of `Scanner<'a>`.  `source` is the borrowed input,
`rest` models the `chars: Peekable<Chars>` iterator (the not yet consumed
suffix), `current` is the byte offset of the next unread character, `start`
the byte offset of the token being recognized.  The constant keyword table
is modelled by the global `keywords` list below. -/
structure Scanner where
  source : List Char
  rest : List Char
  line : Nat
  column : Nat
  start : Nat
  current : Nat
deriving DecidableEq, Repr

/-- `ScannerState`: the snapshot taken by `Scanner::save`. -/
structure ScannerState where
  start : Nat
  current : Nat
  line : Nat
  column : Nat
deriving DecidableEq, Repr

/-- `Scanner::new`. -/
def Scanner.new (source : List Char) : Scanner :=
  ⟨source, source, 1, 1, 0, 0⟩

/-- The coherence invariant between the `chars` iterator and the byte
cursor: `rest` is exactly the character suffix at byte offset `current`.
`Scanner::new` establishes it and every operation preserves it. -/
def Scanner.Valid (s : Scanner) : Prop :=
  s.rest = chars_from s.source s.current

/-- The keyword table built in `Scanner::new` (a per-instance `HashMap`
with constant contents; lookup order is irrelevant as keys are distinct). -/
def keywords : List (String × TokenType) :=
  [("if", .If), ("else", .Else), ("while", .While), ("for", .For),
   ("int", .Int), ("float", .Float), ("bool", .Bool), ("return", .Return),
   ("true", .True), ("false", .False), ("void", .Void), ("struct", .Struct),
   ("fn", .Fn)]

namespace Scanner

/-- `&self.source[self.start..self.current]`: the lexeme slice. -/
def sliceLexeme (s : Scanner) : String :=
  String.mk (take_bytes (chars_from s.source s.start) (s.current - s.start))

/-- `Scanner::peek`. -/
def peek (s : Scanner) : Option Char := s.rest.head?

/-- `Scanner::is_at_end`. -/
def is_at_end (s : Scanner) : Bool := (peek s).isNone

/-- `Scanner::advance`: consume one character, adding its UTF-8 width to the
byte cursor, bumping the column, and on a newline bumping the line and
resetting the column to 1. -/
def advance (s : Scanner) : Option Char × Scanner :=
  match s.rest with
  | [] => (none, s)
  | c :: cs =>
    let s1 : Scanner :=
      { s with rest := cs, current := s.current + c.utf8Size,
               column := s.column + 1 }
    if c = '\n' then (some c, { s1 with line := s1.line + 1, column := 1 })
    else (some c, s1)

/-- `Scanner::match` (`r#match`): conditional advance. -/
def match_char (s : Scanner) (expected : Char) : Bool × Scanner :=
  if peek s = some expected then (true, (advance s).2) else (false, s)

/-- The common loop shape `while let Some(c) = self.peek() { if p c
{ self.advance(); } else { break } }`.  The list argument is the scanner's
`rest` at entry; each caller passes `s.rest`. -/
def consume_while (p : Char → Bool) : List Char → Scanner → Scanner
  | c :: cs, s => if p c then consume_while p cs (advance s).2 else s
  | [], s => s

/-- `Scanner::skip_whitespace`: spaces, tabs and carriage returns only —
the Rust loop does not treat `'\n'` as whitespace. -/
def skip_whitespace (s : Scanner) : Scanner :=
  consume_while (fun c => c == ' ' || c == '\t' || c == '\r') s.rest s

/-- `Scanner::single_line_comment`: consume up to but excluding the next
newline. -/
def single_line_comment (s : Scanner) : Scanner :=
  consume_while (fun c => !(c == '\n')) s.rest s

/-- The loop of `Scanner::block_comment`.  The list argument is the
scanner's `rest` at entry.  On `'/'` the character is consumed and, if a
`'*'` follows, it is consumed too and the nesting depth rises; dually for
`'*'` followed by `'/'`; end of input is an unterminated-comment error. -/
def block_comment_aux : List Char → Nat → Scanner → Option LexicalError × Scanner
  | cs, nesting, s =>
    if nesting = 0 then (none, s)
    else
      match cs with
      | [] => (some .UnterminatedComment, s)
      | '/' :: '*' :: cs2 =>
        block_comment_aux cs2 (nesting + 1) ((advance (advance s).2).2)
      | '/' :: cs1 => block_comment_aux cs1 nesting (advance s).2
      | '*' :: '/' :: cs2 =>
        block_comment_aux cs2 (nesting - 1) ((advance (advance s).2).2)
      | '*' :: cs1 => block_comment_aux cs1 nesting (advance s).2
      | _ :: cs1 => block_comment_aux cs1 nesting (advance s).2

/-- `Scanner::block_comment`: nesting starts at 1, the opening `/*` having
already been consumed by `next_token`. -/
def block_comment (s : Scanner) : Option LexicalError × Scanner :=
  block_comment_aux s.rest 1 s

/-- `Scanner::make_token`. -/
def make_token (checked : Bool) (s : Scanner) (token_type : TokenType)
    (literal : LiteralValue) : Option Token :=
  (usize_sub checked s.current s.start).bind fun span =>
  (usize_sub checked s.column span).map fun col =>
  Token.new token_type (sliceLexeme s) s.line col literal

/-- `Scanner::simple_token`. -/
def simple_token (checked : Bool) (s : Scanner) (token_type : TokenType) :
    Option Token :=
  (usize_sub checked s.current s.start).bind fun span =>
  (usize_sub checked s.column span).map fun col =>
  Token.simple token_type (sliceLexeme s) s.line col

/-- `Scanner::error_token`: renders the error as the token's lexeme. -/
def error_token (checked : Bool) (s : Scanner) (e : LexicalError) :
    Option Token :=
  (usize_sub checked s.current s.start).bind fun span =>
  (usize_sub checked s.column span).map fun col =>
  Token.error (renderError e) s.line col

/-- Pair an optional token with the scanner state it leaves behind. -/
def with_state (s : Scanner) (t : Option Token) : Option (Token × Scanner) :=
  t.map fun tok => (tok, s)

end Scanner

/-- `is_identifier_start` of scanner.rs: ASCII letter or underscore. -/
def is_identifier_start (c : Char) : Bool := c.isAlpha || c == '_'

/-- `is_identifier_continue` of scanner.rs: ASCII letter, digit or
underscore. -/
def is_identifier_continue (c : Char) : Bool := c.isAlphanum || c == '_'

/-- Models `str::parse::<i64>` on the lexemes `Scanner::number` passes it:
nonempty strings of ASCII digits (never signed — a leading `-` is lexed as a
separate token).  Such a string parses to its decimal value when that value
fits in `i64`, and overflows (`Err`) otherwise. -/
def parseI64 (str : String) : Option Int :=
  let cs := str.data
  if cs ≠ [] ∧ cs.all Char.isDigit then
    let v : Nat := cs.foldl (fun a c => a * 10 + (c.toNat - 48)) 0
    if v ≤ 9223372036854775807 then some (v : Int) else none
  else none

/-- Models `str::parse::<f64>` on the lexemes `Scanner::number` passes it:
strings of the shape `digits '.' digits`, which always parse successfully
(huge values become infinities, never `Err`).  The float value itself is not
modelled; the parsed-from lexeme is kept. -/
def parseF64 (str : String) : Option String := some str

/-- The literal attached to a keyword token: `true`/`false` carry a boolean
literal, all other keywords carry none (the `match token_type` of
`Scanner::identifier`). -/
def keyword_literal : TokenType → LiteralValue
  | .True => .Boolean true
  | .False => .Boolean false
  | _ => .NoneV

namespace Scanner

/-- The loop of `Scanner::string`.  The list argument is the scanner's
`rest` at entry; `value` accumulates the enclosed text.  A closing quote
yields a string-literal token; a newline or end of input yields an
unterminated-string error.  The `self.advance().unwrap()` of the loop body
is the `Option` bind on `advance`'s result. -/
def string_aux (checked : Bool) (start_line start_column : Nat) :
    List Char → Scanner → List Char → Option (Token × Scanner)
  | c :: cs, s, value =>
    if c = '"' then
      let s1 := (advance s).2
      some (Token.new .StringLiteral (sliceLexeme s1) start_line start_column
              (.Str (String.mk value)), s1)
    else if c = '\n' then
      with_state s (error_token checked s .UnterminatedString)
    else
      (advance s).1.bind fun ch =>
        string_aux checked start_line start_column cs (advance s).2 (value ++ [ch])
  | [], s, _ =>
    with_state s (error_token checked s .UnterminatedString)

/-- `Scanner::string`, entered after the opening quote was consumed. -/
def string (checked : Bool) (s : Scanner) : Option (Token × Scanner) :=
  (usize_sub checked s.column 1).bind fun start_column =>
  string_aux checked s.line start_column s.rest s []

/-- `Scanner::number`, entered after the first digit was consumed.  A
maximal run of digits, then an optional `'.'` which must be followed by at
least one digit; the lexeme then parses as `f64` or as a range-checked
`i64`. -/
def number (checked : Bool) (s : Scanner) : Option (Token × Scanner) :=
  (usize_sub checked s.column 1).bind fun start_column =>
  let start_line := s.line
  let s := consume_while Char.isDigit s.rest s
  if peek s = some '.' then
    let s := (advance s).2
    if !(match peek s with | some c => c.isDigit | none => false) then
      with_state s (error_token checked s (.MalformedNumber (sliceLexeme s)))
    else
      let s := consume_while Char.isDigit s.rest s
      let lexeme := sliceLexeme s
      match parseF64 lexeme with
      | some val =>
        some (Token.new .FloatLiteral lexeme start_line start_column
                (.FloatLit val), s)
      | none =>
        with_state s (error_token checked s (.MalformedNumber lexeme))
  else
    let lexeme := sliceLexeme s
    match parseI64 lexeme with
    | some val =>
      if val < -2147483648 ∨ val > 2147483647 then
        with_state s (error_token checked s (.IntegerOutOfRange lexeme))
      else
        some (Token.new .IntLiteral lexeme start_line start_column
                (.Integer val), s)
    | none =>
      with_state s (error_token checked s (.MalformedNumber lexeme))

/-- `Scanner::identifier`, entered after its first character was consumed:
a maximal run of letters/digits/underscores, looked up in the keyword
table; a non-keyword longer than 255 bytes is (sic) a malformed-number
error, otherwise an identifier token. -/
def identifier (checked : Bool) (s : Scanner) : Option (Token × Scanner) :=
  (usize_sub checked s.column 1).bind fun start_column =>
  let start_line := s.line
  let s := consume_while is_identifier_continue s.rest s
  let lexeme := sliceLexeme s
  match keywords.lookup lexeme with
  | some token_type =>
    some (Token.new token_type lexeme start_line start_column
            (keyword_literal token_type), s)
  | none =>
    if string_byte_len lexeme > 255 then
      with_state s (error_token checked s (.MalformedNumber lexeme))
    else
      some (Token.new .Identifier lexeme start_line start_column .NoneV, s)

/-- The `match c` dispatch of `Scanner::next_token` (scanner.rs lines
74-166), in source order.  `recur` stands for the `self.next_token()`
recursion performed after a comment was skipped; `c` is the character just
consumed and `s1` the state after consuming it. -/
def next_token_dispatch (checked : Bool)
    (recur : Scanner → Option (Token × Scanner)) (c : Char) (s1 : Scanner) :
    Option (Token × Scanner) :=
  if c = '(' then with_state s1 (simple_token checked s1 .LParen)
  else if c = ')' then with_state s1 (simple_token checked s1 .RParen)
  else if c = '{' then with_state s1 (simple_token checked s1 .LBrace)
  else if c = '}' then with_state s1 (simple_token checked s1 .RBrace)
  else if c = '[' then with_state s1 (simple_token checked s1 .LBracket)
  else if c = ']' then with_state s1 (simple_token checked s1 .RBracket)
  else if c = ';' then with_state s1 (simple_token checked s1 .Semicolon)
  else if c = ',' then with_state s1 (simple_token checked s1 .Comma)
  else if c = ':' then with_state s1 (simple_token checked s1 .Colon)
  else if c = '+' then
    match match_char s1 '=' with
    | (true, s2) => with_state s2 (simple_token checked s2 .PlusEqual)
    | (false, s2) => with_state s2 (simple_token checked s2 .Plus)
  else if c = '-' then
    match match_char s1 '=' with
    | (true, s2) => with_state s2 (simple_token checked s2 .MinusEqual)
    | (false, s2) => with_state s2 (simple_token checked s2 .Minus)
  else if c = '*' then
    match match_char s1 '=' with
    | (true, s2) => with_state s2 (simple_token checked s2 .StarEqual)
    | (false, s2) => with_state s2 (simple_token checked s2 .Star)
  else if c = '/' then
    match match_char s1 '/' with
    | (true, s2) => recur (single_line_comment s2)
    | (false, s2) =>
      match match_char s2 '*' with
      | (true, s3) =>
        match block_comment s3 with
        | (some e, s4) => with_state s4 (error_token checked s4 e)
        | (none, s4) => recur s4
      | (false, s3) =>
        match match_char s3 '=' with
        | (true, s4) => with_state s4 (simple_token checked s4 .SlashEqual)
        | (false, s4) => with_state s4 (simple_token checked s4 .Slash)
  else if c = '=' then
    match match_char s1 '=' with
    | (true, s2) => with_state s2 (simple_token checked s2 .EqualEqual)
    | (false, s2) => with_state s2 (simple_token checked s2 .Equal)
  else if c = '!' then
    match match_char s1 '=' with
    | (true, s2) => with_state s2 (simple_token checked s2 .NotEqual)
    | (false, s2) => with_state s2 (simple_token checked s2 .Bang)
  else if c = '<' then
    match match_char s1 '=' with
    | (true, s2) => with_state s2 (simple_token checked s2 .LessEqual)
    | (false, s2) => with_state s2 (simple_token checked s2 .Less)
  else if c = '>' then
    match match_char s1 '=' with
    | (true, s2) => with_state s2 (simple_token checked s2 .GreaterEqual)
    | (false, s2) => with_state s2 (simple_token checked s2 .Greater)
  else if c = '&' then
    match match_char s1 '&' with
    | (true, s2) => with_state s2 (simple_token checked s2 .AndAnd)
    | (false, s2) =>
      with_state s2 (error_token checked s2 (.InvalidCharacter '&'))
  else if c = '|' then
    match match_char s1 '|' with
    | (true, s2) => with_state s2 (simple_token checked s2 .OrOr)
    | (false, s2) =>
      with_state s2 (error_token checked s2 (.InvalidCharacter '|'))
  else if c = '"' then string checked s1
  else if c.isDigit then number checked s1
  else if is_identifier_start c then identifier checked s1
  else with_state s1 (error_token checked s1 (.InvalidCharacter c))

/-- The `self.start = self.current;` assignment at the top of
`Scanner::next_token`. -/
def begin_token (s : Scanner) : Scanner := { s with start := s.current }

/-- One call of `Scanner::next_token` with the recursion abstracted as
`recur`: skip whitespace, set `start := current`, return end-of-input at
the end, otherwise consume one character (`self.advance().unwrap()` — the
`Option` match on `advance`'s result) and dispatch on it. -/
def next_token_body (checked : Bool)
    (recur : Scanner → Option (Token × Scanner)) (s0 : Scanner) :
    Option (Token × Scanner) :=
  let s := begin_token (skip_whitespace s0)
  if is_at_end s then
    with_state s (make_token checked s .EndOfFile .NoneV)
  else
    match advance s with
    | (none, _) => none
    | (some c, s1) => next_token_dispatch checked recur c s1

/-- `Scanner::next_token`, with explicit recursion fuel.  The Rust function
recurses into itself after skipping a comment; every recursion first
consumes at least the two characters opening the comment, so
`s.rest.length + 1` fuel always suffices (`next_token` below). -/
def next_token_fuel (checked : Bool) : Nat → Scanner → Option (Token × Scanner)
  | 0, _ => none
  | fuel + 1, s0 => next_token_body checked (next_token_fuel checked fuel) s0

/-- `Scanner::next_token`. -/
def next_token (checked : Bool) (s : Scanner) : Option (Token × Scanner) :=
  next_token_fuel checked (s.rest.length + 1) s

/-- `Scanner::save`. -/
def save (s : Scanner) : ScannerState :=
  ⟨s.start, s.current, s.line, s.column⟩

/-- `Scanner::restore`: put back the four scalar fields and rebuild the
`chars` iterator as `self.source[self.current..].chars().peekable()`. -/
def restore (s : Scanner) (state : ScannerState) : Scanner :=
  { s with start := state.start, current := state.current,
           line := state.line, column := state.column,
           rest := chars_from s.source state.current }

/-- `Scanner::peek_token`: snapshot, scan one token, restore. -/
def peek_token (checked : Bool) (s : Scanner) : Option (Token × Scanner) :=
  (next_token checked s).map fun p => (p.1, restore p.2 (save s))

/-- The first `n` tokens produced by repeated `next_token` calls (the
driver loop of the test helper `tokenize` and of `run_lexer`). -/
def scan_tokens (checked : Bool) : Nat → Scanner → Option (List Token)
  | 0, _ => some []
  | n + 1, s =>
    (next_token checked s).bind fun p =>
      (scan_tokens checked n p.2).map fun ts => p.1 :: ts

end Scanner

/-- Does the head of the list, if any, satisfy `q`? -/
def head_sat (q : Char → Bool) : List Char → Bool
  | [] => true
  | c :: _ => q c

namespace Scanner

/-- The behaviour `next_token` guarantees of each call, stated relative to
the state `s0` it was entered with: exactly one token comes back (with the
release build's wrapping arithmetic), the borrowed source is unchanged, and
an end-of-input token is only produced with the input exhausted. -/
def NTokOk (s0 : Scanner) (r : Option (Token × Scanner)) : Prop :=
  ∃ t s', r = some (t, s') ∧ s'.source = s0.source ∧
    (t.token_type = .EndOfFile → s'.rest = [])

end Scanner

/-- Decimal value denoted by a digit string (what `str::parse` computes on
the all-digit lexemes of this scanner). -/
def digits_val (w : List Char) : Int :=
  ((w.foldl (fun a c => a * 10 + (c.toNat - 48)) 0 : Nat) : Int)

/-- The token `next_token` produces for an integer literal with digits `w`
starting at `line`/`col`: the exact value when it fits in `i32`; an
integer-out-of-range error when it fits in `i64` but not in `i32`; and —
sic — a malformed-number error when it does not even fit in `i64` (because
`lexeme.parse::<i64>()` already fails). -/
def int_lit_result (w : List Char) (line col : Nat) : Token :=
  if digits_val w ≤ 2147483647 then
    Token.new .IntLiteral (String.mk w) line col (.Integer (digits_val w))
  else if digits_val w ≤ 9223372036854775807 then
    Token.error ("integer literal out of range: " ++ String.mk w) line col
  else
    Token.error ("malformed number: '" ++ String.mk w ++ "'") line col

/-- The token `next_token` produces for a maximal identifier run `w`
starting at `line`/`col`: the keyword's kind on an exact keyword-table
match (`true`/`false` carrying a boolean literal), else — sic — a
malformed-number error for a run longer than 255 bytes, else an identifier
token. -/
def ident_result (w : List Char) (line col : Nat) : Token :=
  match keywords.lookup (String.mk w) with
  | some token_type =>
    Token.new token_type (String.mk w) line col (keyword_literal token_type)
  | none =>
    if string_byte_len (String.mk w) > 255 then
      Token.error ("malformed number: '" ++ String.mk w ++ "'") line col
    else Token.new .Identifier (String.mk w) line col .NoneV

/-- The first token of a source text, as the CLI's driver loop sees it. -/
def first_token (src : String) : Option Token :=
  (Scanner.next_token false (Scanner.new src.toList)).map Prod.fst

-- ---------------------------------------------------------------------------
-- Theorems
-- ---------------------------------------------------------------------------

theorem usize_sub_false (a b : Nat) :
    usize_sub false a b = some (usize_sub_val a b) := by
  unfold usize_sub usize_sub_val
  split <;> simp

namespace Scanner

theorem with_state_eq_some {s : Scanner} {t : Option Token} {tok : Token}
    {s' : Scanner} :
    with_state s t = some (tok, s') ↔ t = some tok ∧ s' = s := by
  unfold with_state
  cases t <;> simp <;> aesop

@[simp] theorem make_token_false (s : Scanner) (tt : TokenType)
    (lit : LiteralValue) :
    make_token false s tt lit =
      some (Token.new tt (sliceLexeme s) s.line
              (usize_sub_val s.column (usize_sub_val s.current s.start)) lit) := by
  simp [make_token, usize_sub_false]

@[simp] theorem simple_token_false (s : Scanner) (tt : TokenType) :
    simple_token false s tt =
      some (Token.simple tt (sliceLexeme s) s.line
              (usize_sub_val s.column (usize_sub_val s.current s.start))) := by
  simp [simple_token, usize_sub_false]

@[simp] theorem error_token_false (s : Scanner) (e : LexicalError) :
    error_token false s e =
      some (Token.error (renderError e) s.line
              (usize_sub_val s.column (usize_sub_val s.current s.start))) := by
  simp [error_token, usize_sub_false]

@[simp] theorem advance_source (s : Scanner) : (advance s).2.source = s.source := by
  cases hr : s.rest <;> simp [advance, hr] <;> split <;> rfl

@[simp] theorem advance_start (s : Scanner) : (advance s).2.start = s.start := by
  cases hr : s.rest <;> simp [advance, hr] <;> split <;> rfl

theorem advance_rest_tail (s : Scanner) : (advance s).2.rest = s.rest.tail := by
  cases hr : s.rest <;> simp [advance, hr] <;> split <;> rfl

theorem advance_cons {s : Scanner} {c : Char} {cs : List Char}
    (h : s.rest = c :: cs) (hnl : c ≠ '\n') :
    advance s = (some c,
      { s with rest := cs, current := s.current + c.utf8Size,
               column := s.column + 1 }) := by
  unfold advance
  rw [h]
  simp [hnl]

theorem advance_fst_some {s : Scanner} {c : Char} {cs : List Char}
    (h : s.rest = c :: cs) : (advance s).1 = some c := by
  simp only [advance, h]
  split <;> rfl

theorem advance_len {s : Scanner} {c : Char} {cs : List Char}
    (h : s.rest = c :: cs) :
    (advance s).2.rest.length + 1 = s.rest.length := by
  rw [advance_rest_tail, h]
  rfl

theorem match_char_source (s : Scanner) (c : Char) :
    (match_char s c).2.source = s.source := by
  unfold match_char
  split <;> simp

theorem match_char_start (s : Scanner) (c : Char) :
    (match_char s c).2.start = s.start := by
  unfold match_char
  split <;> simp

theorem match_char_false_eq {s : Scanner} {c : Char} {s' : Scanner}
    (h : match_char s c = (false, s')) : s' = s := by
  unfold match_char at h
  split at h
  · simp at h
  · simp at h
    exact h.symm

theorem match_char_true_rest {s : Scanner} {c : Char} {s' : Scanner}
    (h : match_char s c = (true, s')) :
    s.rest = c :: s'.rest ∧ s'.rest = s.rest.tail := by
  unfold match_char at h
  split at h
  · next hp =>
    simp at h
    have hr : s.rest = c :: s.rest.tail := by
      unfold peek at hp
      cases hrest : s.rest with
      | nil => rw [hrest] at hp; simp at hp
      | cons a as => rw [hrest] at hp; simp at hp; rw [hp]; rfl
    constructor
    · rw [← h, advance_rest_tail, ← hr]
    · rw [← h, advance_rest_tail]
  · simp at h

end Scanner

theorem isDigit_val {c : Char} (h : c.isDigit = true) :
    48 ≤ c.val.toNat ∧ c.val.toNat ≤ 57 := by
  simp [Char.isDigit, Bool.and_eq_true, decide_eq_true_eq] at h
  exact ⟨h.1, h.2⟩

theorem isAlpha_val {c : Char} (h : c.isAlpha = true) :
    (65 ≤ c.val.toNat ∧ c.val.toNat ≤ 90) ∨
      (97 ≤ c.val.toNat ∧ c.val.toNat ≤ 122) := by
  simp [Char.isAlpha, Char.isUpper, Char.isLower, Bool.and_eq_true,
        decide_eq_true_eq] at h
  rcases h with h | h
  · exact Or.inl ⟨h.1, h.2⟩
  · exact Or.inr ⟨h.1, h.2⟩

theorem utf8Size_of_ascii {c : Char} (h : c.val.toNat < 128) :
    c.utf8Size = 1 := by
  unfold Char.utf8Size
  rw [if_pos]
  show c.val.toNat ≤ 127
  omega

theorem isDigit_utf8Size {c : Char} (h : c.isDigit = true) : c.utf8Size = 1 :=
  utf8Size_of_ascii (by have := isDigit_val h; omega)

theorem ident_continue_utf8Size {c : Char}
    (h : is_identifier_continue c = true) : c.utf8Size = 1 := by
  simp [is_identifier_continue, Char.isAlphanum, Bool.or_eq_true] at h
  rcases h with (h | h) | h
  · exact utf8Size_of_ascii (by rcases isAlpha_val h with h | h <;> omega)
  · exact isDigit_utf8Size h
  · rw [h]; decide

theorem ident_start_continue {c : Char} (h : is_identifier_start c = true) :
    is_identifier_continue c = true := by
  simp [is_identifier_start, Bool.or_eq_true] at h
  simp [is_identifier_continue, Char.isAlphanum, Bool.or_eq_true]
  tauto

theorem ident_start_not_digit {c : Char} (h : is_identifier_start c = true) :
    c.isDigit = false := by
  simp [is_identifier_start, Bool.or_eq_true] at h
  cases hd : c.isDigit
  · rfl
  · exfalso
    rcases h with h | h
    · have h1 := isAlpha_val h
      have h2 := isDigit_val hd
      rcases h1 with h1 | h1 <;> omega
    · rw [h] at hd
      exact absurd hd (by decide)

/-- A digit cannot be any of the characters the dispatch of `next_token`
tests before reaching the digit branch, nor a whitespace or a newline. -/
theorem digit_ne_dispatch {c : Char} (h : c.isDigit = true) :
    c ≠ '(' ∧ c ≠ ')' ∧ c ≠ '{' ∧ c ≠ '}' ∧ c ≠ '[' ∧ c ≠ ']' ∧ c ≠ ';' ∧
    c ≠ ',' ∧ c ≠ ':' ∧ c ≠ '+' ∧ c ≠ '-' ∧ c ≠ '*' ∧ c ≠ '/' ∧ c ≠ '=' ∧
    c ≠ '!' ∧ c ≠ '<' ∧ c ≠ '>' ∧ c ≠ '&' ∧ c ≠ '|' ∧ c ≠ '"' ∧ c ≠ ' ' ∧
    c ≠ '\t' ∧ c ≠ '\r' ∧ c ≠ '\n' := by
  refine ⟨?_, ?_, ?_, ?_, ?_, ?_, ?_, ?_, ?_, ?_, ?_, ?_, ?_, ?_, ?_, ?_,
          ?_, ?_, ?_, ?_, ?_, ?_, ?_, ?_⟩ <;>
    (rintro rfl; exact absurd h (by decide))

/-- An identifier-start character cannot be any of the characters the
dispatch of `next_token` tests before reaching the identifier branch. -/
theorem ident_start_ne_dispatch {c : Char} (h : is_identifier_start c = true) :
    c ≠ '(' ∧ c ≠ ')' ∧ c ≠ '{' ∧ c ≠ '}' ∧ c ≠ '[' ∧ c ≠ ']' ∧ c ≠ ';' ∧
    c ≠ ',' ∧ c ≠ ':' ∧ c ≠ '+' ∧ c ≠ '-' ∧ c ≠ '*' ∧ c ≠ '/' ∧ c ≠ '=' ∧
    c ≠ '!' ∧ c ≠ '<' ∧ c ≠ '>' ∧ c ≠ '&' ∧ c ≠ '|' ∧ c ≠ '"' ∧ c ≠ ' ' ∧
    c ≠ '\t' ∧ c ≠ '\r' ∧ c ≠ '\n' := by
  refine ⟨?_, ?_, ?_, ?_, ?_, ?_, ?_, ?_, ?_, ?_, ?_, ?_, ?_, ?_, ?_, ?_,
          ?_, ?_, ?_, ?_, ?_, ?_, ?_, ?_⟩ <;>
    (rintro rfl; exact absurd h (by decide))

theorem ident_continue_ne_nl {c : Char}
    (h : is_identifier_continue c = true) : c ≠ '\n' := by
  rintro rfl; exact absurd h (by decide)

@[simp] theorem chars_from_zero (src : List Char) : chars_from src 0 = src := by
  cases src <;> rfl

@[simp] theorem take_bytes_zero (cs : List Char) : take_bytes cs 0 = [] := by
  cases cs <;> rfl

theorem take_bytes_append (w t : List Char) :
    take_bytes (w ++ t) (utf8_len w) = w := by
  induction w with
  | nil => simp [utf8_len]
  | cons c w ih =>
    have hpos : 0 < c.utf8Size := c.utf8Size_pos
    obtain ⟨k, hk⟩ : ∃ k, utf8_len (c :: w) = k + 1 := by
      refine ⟨utf8_len (c :: w) - 1, ?_⟩
      simp only [utf8_len]
      omega
    rw [List.cons_append, hk]
    show c :: take_bytes (w ++ t) (k + 1 - c.utf8Size) = c :: w
    have : k + 1 - c.utf8Size = utf8_len w := by
      simp only [utf8_len] at hk
      omega
    rw [this, ih]

theorem utf8_len_ones {w : List Char} (h : ∀ c ∈ w, c.utf8Size = 1) :
    utf8_len w = w.length := by
  induction w with
  | nil => rfl
  | cons c w ih =>
    simp only [utf8_len, List.length_cons]
    rw [h c (by simp), ih (fun d hd => h d (by simp [hd]))]
    omega

namespace Scanner

theorem consume_while_source (p : Char → Bool) :
    ∀ (cs : List Char) (s : Scanner), (consume_while p cs s).source = s.source := by
  intro cs
  induction cs with
  | nil => intro s; rfl
  | cons c cs ih =>
    intro s
    simp only [consume_while]
    split
    · rw [ih, advance_source]
    · rfl

theorem consume_while_start (p : Char → Bool) :
    ∀ (cs : List Char) (s : Scanner), (consume_while p cs s).start = s.start := by
  intro cs
  induction cs with
  | nil => intro s; rfl
  | cons c cs ih =>
    intro s
    simp only [consume_while]
    split
    · rw [ih, advance_start]
    · rfl

theorem consume_while_len (p : Char → Bool) :
    ∀ (cs : List Char) (s : Scanner), s.rest = cs →
      (consume_while p cs s).rest.length ≤ cs.length := by
  intro cs
  induction cs with
  | nil => intro s h; simp [consume_while, h]
  | cons c cs ih =>
    intro s h
    simp only [consume_while]
    split
    · have hr : (advance s).2.rest = cs := by rw [advance_rest_tail, h]; rfl
      have := ih (advance s).2 hr
      simp only [List.length_cons]
      omega
    · rw [h]

/-- Full characterization of the consume loops on a run: if the scanner's
rest is `w ++ tail` where every character of `w` satisfies `p` (and is not
a newline) and the head of `tail`, if any, does not, the loop consumes
exactly `w`, advancing the byte cursor by `w`'s UTF-8 length and the column
by `w`'s character count. -/
theorem consume_run (p : Char → Bool) :
    ∀ (w tail : List Char) (s : Scanner), s.rest = w ++ tail →
      (∀ c ∈ w, p c = true ∧ c ≠ '\n') →
      head_sat (fun c => !p c) tail = true →
      consume_while p (w ++ tail) s =
        { s with rest := tail, current := s.current + utf8_len w,
                 column := s.column + w.length } := by
  intro w
  induction w with
  | nil =>
    intro tail s h _ htail
    simp only [List.nil_append] at h ⊢
    subst h
    obtain ⟨src, rst, ln, col, st, cur⟩ := s
    dsimp only at htail ⊢
    cases rst with
    | nil => simp [consume_while, utf8_len]
    | cons c cs =>
      simp only [head_sat, Bool.not_eq_true'] at htail
      simp [consume_while, htail, utf8_len]
  | cons d w ih =>
    intro tail s h hw htail
    obtain ⟨src, rst, ln, col, st, cur⟩ := s
    dsimp only at h
    subst h
    have hd := hw d (by simp)
    simp only [List.cons_append, consume_while, hd.1, if_true]
    have hadv : advance ⟨src, d :: (w ++ tail), ln, col, st, cur⟩ =
        (some d, ⟨src, w ++ tail, ln, col + 1, st, cur + d.utf8Size⟩) := by
      simp [advance, hd.2]
    rw [hadv]
    simp only [List.append_eq]
    rw [ih tail _ rfl (fun c hc => hw c (by simp [hc])) htail]
    simp [utf8_len, Scanner.mk.injEq]
    omega

/-- Step equations for `block_comment_aux`. -/
theorem bca_zero (cs : List Char) (s : Scanner) :
    block_comment_aux cs 0 s = (none, s) := by
  rw [block_comment_aux.eq_def]
  simp

theorem bca_nil {n : Nat} (hn : n ≠ 0) (s : Scanner) :
    block_comment_aux [] n s = (some .UnterminatedComment, s) := by
  rw [block_comment_aux.eq_def]
  simp [hn]

theorem bca_slash_star {n : Nat} (hn : n ≠ 0) (cs2 : List Char) (s : Scanner) :
    block_comment_aux ('/' :: '*' :: cs2) n s =
      block_comment_aux cs2 (n + 1) ((advance (advance s).2).2) := by
  rw [block_comment_aux.eq_def]
  repeat' split
  all_goals first
  | (simp_all; done)
  | (exfalso; aesop)

theorem bca_slash_nil {n : Nat} (hn : n ≠ 0) (s : Scanner) :
    block_comment_aux ['/'] n s = block_comment_aux [] n (advance s).2 := by
  rw [block_comment_aux.eq_def]
  repeat' split
  all_goals first
  | (simp_all; done)
  | (exfalso; aesop)

theorem bca_slash {n : Nat} (hn : n ≠ 0) {a : Char} (ha : a ≠ '*')
    (as : List Char) (s : Scanner) :
    block_comment_aux ('/' :: a :: as) n s =
      block_comment_aux (a :: as) n (advance s).2 := by
  rw [block_comment_aux.eq_def]
  repeat' split
  all_goals first
  | (simp_all; done)
  | (exfalso; aesop)

theorem bca_star_slash {n : Nat} (hn : n ≠ 0) (cs2 : List Char) (s : Scanner) :
    block_comment_aux ('*' :: '/' :: cs2) n s =
      block_comment_aux cs2 (n - 1) ((advance (advance s).2).2) := by
  rw [block_comment_aux.eq_def]
  repeat' split
  all_goals first
  | (simp_all; done)
  | (exfalso; aesop)

theorem bca_star_nil {n : Nat} (hn : n ≠ 0) (s : Scanner) :
    block_comment_aux ['*'] n s = block_comment_aux [] n (advance s).2 := by
  rw [block_comment_aux.eq_def]
  repeat' split
  all_goals first
  | (simp_all; done)
  | (exfalso; aesop)

theorem bca_star {n : Nat} (hn : n ≠ 0) {a : Char} (ha : a ≠ '/')
    (as : List Char) (s : Scanner) :
    block_comment_aux ('*' :: a :: as) n s =
      block_comment_aux (a :: as) n (advance s).2 := by
  rw [block_comment_aux.eq_def]
  repeat' split
  all_goals first
  | (simp_all; done)
  | (exfalso; aesop)

theorem bca_other {n : Nat} (hn : n ≠ 0) {c : Char} (h1 : c ≠ '/')
    (h2 : c ≠ '*') (cs1 : List Char) (s : Scanner) :
    block_comment_aux (c :: cs1) n s =
      block_comment_aux cs1 n (advance s).2 := by
  rw [block_comment_aux.eq_def]
  repeat' split
  all_goals first
  | (simp_all; done)
  | (exfalso; aesop)

/-- `block_comment_aux` preserves `source` and `start`, and never grows the
remaining input. -/
theorem bca_props : ∀ (N : Nat) (cs : List Char) (n : Nat) (s : Scanner),
    cs.length ≤ N → s.rest = cs →
    (block_comment_aux cs n s).2.source = s.source ∧
    (block_comment_aux cs n s).2.start = s.start ∧
    (block_comment_aux cs n s).2.rest.length ≤ cs.length := by
  intro N
  induction N with
  | zero =>
    intro cs n s hlen hinv
    have hcs : cs = [] := List.eq_nil_of_length_eq_zero (by omega)
    subst hcs
    by_cases hn : n = 0
    · subst hn; rw [bca_zero]; simp [← hinv]
    · rw [bca_nil hn]; simp [← hinv]
  | succ N ih =>
    intro cs n s hlen hinv
    by_cases hn : n = 0
    · subst hn; rw [bca_zero]; simp [← hinv]
    cases cs with
    | nil => rw [bca_nil hn]; simp [← hinv]
    | cons c cs1 =>
      have hinv1 : (advance s).2.rest = cs1 := by
        rw [advance_rest_tail, hinv]; rfl
      by_cases hc : c = '/'
      · subst hc
        cases cs1 with
        | nil =>
          rw [bca_slash_nil hn]
          obtain ⟨a1, a2, a3⟩ := ih [] n (advance s).2 (by simp) hinv1
          exact ⟨by rw [a1]; simp, by rw [a2]; simp, le_trans a3 (by simp)⟩
        | cons a as =>
          by_cases ha : a = '*'
          · subst ha
            rw [bca_slash_star hn]
            have hinv2 : ((advance (advance s).2).2).rest = as := by
              rw [advance_rest_tail, hinv1]; rfl
            obtain ⟨a1, a2, a3⟩ :=
              ih as (n + 1) ((advance (advance s).2).2)
                (by simp at hlen; omega) hinv2
            refine ⟨by rw [a1]; simp, by rw [a2]; simp, ?_⟩
            simp at a3 ⊢
            omega
          · rw [bca_slash hn ha]
            obtain ⟨a1, a2, a3⟩ :=
              ih (a :: as) n (advance s).2 (by simp at hlen ⊢; omega) hinv1
            refine ⟨by rw [a1]; simp, by rw [a2]; simp, ?_⟩
            simp at a3 ⊢
            omega
      · by_cases hc2 : c = '*'
        · subst hc2
          cases cs1 with
          | nil =>
            rw [bca_star_nil hn]
            obtain ⟨a1, a2, a3⟩ := ih [] n (advance s).2 (by simp) hinv1
            exact ⟨by rw [a1]; simp, by rw [a2]; simp, le_trans a3 (by simp)⟩
          | cons a as =>
            by_cases ha : a = '/'
            · subst ha
              rw [bca_star_slash hn]
              have hinv2 : ((advance (advance s).2).2).rest = as := by
                rw [advance_rest_tail, hinv1]; rfl
              obtain ⟨a1, a2, a3⟩ :=
                ih as (n - 1) ((advance (advance s).2).2)
                  (by simp at hlen; omega) hinv2
              refine ⟨by rw [a1]; simp, by rw [a2]; simp, ?_⟩
              simp at a3 ⊢
              omega
            · rw [bca_star hn ha]
              obtain ⟨a1, a2, a3⟩ :=
                ih (a :: as) n (advance s).2 (by simp at hlen ⊢; omega) hinv1
              refine ⟨by rw [a1]; simp, by rw [a2]; simp, ?_⟩
              simp at a3 ⊢
              omega
        · rw [bca_other hn hc hc2]
          obtain ⟨a1, a2, a3⟩ :=
            ih cs1 n (advance s).2 (by simp at hlen; omega) hinv1
          refine ⟨by rw [a1]; simp, by rw [a2]; simp, ?_⟩
          simp at a3 ⊢
          omega

theorem block_comment_source {s : Scanner} :
    (block_comment s).2.source = s.source :=
  (bca_props s.rest.length s.rest 1 s (le_refl _) rfl).1

theorem block_comment_start {s : Scanner} :
    (block_comment s).2.start = s.start :=
  (bca_props s.rest.length s.rest 1 s (le_refl _) rfl).2.1

theorem block_comment_len {s : Scanner} :
    (block_comment s).2.rest.length ≤ s.rest.length :=
  (bca_props s.rest.length s.rest 1 s (le_refl _) rfl).2.2

@[simp] theorem Token_new_type (tt : TokenType) (lx : String) (l c : Nat)
    (lit : LiteralValue) : (Token.new tt lx l c lit).token_type = tt := rfl

@[simp] theorem Token_simple_type (tt : TokenType) (lx : String) (l c : Nat) :
    (Token.simple tt lx l c).token_type = tt := rfl

@[simp] theorem Token_error_type (lx : String) (l c : Nat) :
    (Token.error lx l c).token_type = .Error := rfl

theorem with_state_error_false (s : Scanner) (e : LexicalError) :
    with_state s (error_token false s e) =
      some (Token.error (renderError e) s.line
              (usize_sub_val s.column (usize_sub_val s.current s.start)), s) := by
  simp [with_state]

theorem string_aux_props :
    ∀ (cs : List Char) (s : Scanner) (v : List Char) (a b : Nat),
      s.rest = cs →
      ∃ t s', string_aux false a b cs s v = some (t, s') ∧
        s'.source = s.source ∧
        (t.token_type = .StringLiteral ∨ t.token_type = .Error) := by
  intro cs
  induction cs with
  | nil =>
    intro s v a b _
    simp only [string_aux]
    rw [with_state_error_false]
    exact ⟨_, _, rfl, rfl, Or.inr rfl⟩
  | cons c cs ih =>
    intro s v a b hinv
    by_cases hq : c = '"'
    · subst hq
      simp only [string_aux, if_pos rfl]
      exact ⟨_, _, rfl, by simp, Or.inl rfl⟩
    · by_cases hnl : c = '\n'
      · subst hnl
        simp only [string_aux, if_neg hq, if_pos rfl, reduceIte]
        rw [with_state_error_false]
        exact ⟨_, _, rfl, rfl, Or.inr rfl⟩
      · have hfst : (advance s).1 = some c := advance_fst_some hinv
        have hrest : (advance s).2.rest = cs := by
          rw [advance_rest_tail, hinv]; rfl
        obtain ⟨t, s', heq, hsrc, hty⟩ := ih (advance s).2 (v ++ [c]) a b hrest
        refine ⟨t, s', ?_, by rw [hsrc]; simp, hty⟩
        simp only [string_aux, hq, hnl, if_false, ite_false, reduceIte, hfst,
                   Option.some_bind]
        exact heq

theorem string_props (s : Scanner) :
    ∃ t s', string false s = some (t, s') ∧ s'.source = s.source ∧
      (t.token_type = .StringLiteral ∨ t.token_type = .Error) := by
  obtain ⟨t, s', hsome, hsrc, hty⟩ := string_aux_props s.rest s [] s.line
    (usize_sub_val s.column 1) rfl
  exact ⟨t, s', by simp [string, usize_sub_false, hsome], hsrc, hty⟩

theorem number_props (s : Scanner) :
    ∃ t s', number false s = some (t, s') ∧ s'.source = s.source ∧
      (t.token_type = .IntLiteral ∨ t.token_type = .FloatLiteral ∨
        t.token_type = .Error) := by
  unfold number
  rw [usize_sub_false]
  simp only [Option.some_bind]
  split
  · -- a '.' follows the first digit run
    split
    · rw [with_state_error_false]
      exact ⟨_, _, rfl, by simp [consume_while_source], Or.inr (Or.inr rfl)⟩
    · split
      · exact ⟨_, _, rfl, by simp [consume_while_source], Or.inr (Or.inl rfl)⟩
      · rw [with_state_error_false]
        exact ⟨_, _, rfl, by simp [consume_while_source], Or.inr (Or.inr rfl)⟩
  · split
    · split
      · rw [with_state_error_false]
        exact ⟨_, _, rfl, by simp [consume_while_source], Or.inr (Or.inr rfl)⟩
      · exact ⟨_, _, rfl, by simp [consume_while_source], Or.inl rfl⟩
    · rw [with_state_error_false]
      exact ⟨_, _, rfl, by simp [consume_while_source], Or.inr (Or.inr rfl)⟩

theorem lookup_mem_snd {α β : Type} [BEq α] :
    ∀ (l : List (α × β)) (k : α) (b : β),
      l.lookup k = some b → b ∈ l.map Prod.snd := by
  intro l
  induction l with
  | nil => intro k b h; simp [List.lookup] at h
  | cons p l ih =>
    intro k b h
    rw [List.lookup_cons] at h
    split at h
    · simp at h
      simp [h]
    · have := ih k b h
      simp [this]

theorem keywords_lookup_ne_eof {k : String} {tt : TokenType}
    (h : keywords.lookup k = some tt) : tt ≠ .EndOfFile := by
  have hm := lookup_mem_snd keywords k tt h
  simp [keywords] at hm
  rcases hm with h | h | h | h | h | h | h | h | h | h | h | h | h <;>
    (subst h; decide)

theorem identifier_props (s : Scanner) :
    ∃ t s', identifier false s = some (t, s') ∧ s'.source = s.source ∧
      t.token_type ≠ .EndOfFile := by
  unfold identifier
  rw [usize_sub_false]
  simp only [Option.some_bind]
  split
  · next tt hlook =>
    exact ⟨_, _, rfl, by simp [consume_while_source],
           by simp [keywords_lookup_ne_eof hlook]⟩
  · split
    · rw [with_state_error_false]
      exact ⟨_, _, rfl, by simp [consume_while_source], by simp⟩
    · exact ⟨_, _, rfl, by simp [consume_while_source], by simp⟩

@[simp] theorem begin_token_source (s : Scanner) :
    (begin_token s).source = s.source := rfl

@[simp] theorem begin_token_rest (s : Scanner) :
    (begin_token s).rest = s.rest := rfl

@[simp] theorem begin_token_line (s : Scanner) :
    (begin_token s).line = s.line := rfl

@[simp] theorem begin_token_column (s : Scanner) :
    (begin_token s).column = s.column := rfl

@[simp] theorem begin_token_current (s : Scanner) :
    (begin_token s).current = s.current := rfl

@[simp] theorem begin_token_start (s : Scanner) :
    (begin_token s).start = s.current := rfl

theorem skip_whitespace_source (s : Scanner) :
    (skip_whitespace s).source = s.source := consume_while_source _ _ _

theorem skip_whitespace_start (s : Scanner) :
    (skip_whitespace s).start = s.start := consume_while_start _ _ _

theorem skip_whitespace_len (s : Scanner) :
    (skip_whitespace s).rest.length ≤ s.rest.length :=
  consume_while_len _ _ _ rfl

theorem single_line_comment_source (s : Scanner) :
    (single_line_comment s).source = s.source := consume_while_source _ _ _

theorem single_line_comment_len (s : Scanner) :
    (single_line_comment s).rest.length ≤ s.rest.length :=
  consume_while_len _ _ _ rfl

theorem NTokOk_mono {s0 s1 : Scanner} {r : Option (Token × Scanner)}
    (h : NTokOk s1 r) (hsrc : s1.source = s0.source) : NTokOk s0 r := by
  obtain ⟨t, s', h1, h2, h3⟩ := h
  exact ⟨t, s', h1, by rw [h2, hsrc], h3⟩

@[simp] theorem with_state_some (s : Scanner) (t : Token) :
    with_state s (some t) = some (t, s) := rfl

theorem NTokOk_simple {tt : TokenType} (htt : tt ≠ .EndOfFile)
    (s : Scanner) : NTokOk s (with_state s (simple_token false s tt)) := by
  rw [simple_token_false, with_state_some]
  exact ⟨_, _, rfl, rfl, fun h => absurd h htt⟩

theorem NTokOk_error (s : Scanner) (e : LexicalError) :
    NTokOk s (with_state s (error_token false s e)) := by
  rw [with_state_error_false]
  exact ⟨_, _, rfl, rfl, by simp⟩

theorem NTokOk_string (s : Scanner) : NTokOk s (string false s) := by
  obtain ⟨t, s', h1, h2, h3⟩ := string_props s
  refine ⟨t, s', h1, h2, ?_⟩
  intro h
  rcases h3 with h3 | h3 <;> (rw [h] at h3; cases h3)

theorem NTokOk_number (s : Scanner) : NTokOk s (number false s) := by
  obtain ⟨t, s', h1, h2, h3⟩ := number_props s
  refine ⟨t, s', h1, h2, ?_⟩
  intro h
  rcases h3 with h3 | h3 | h3 <;> (rw [h] at h3; cases h3)

theorem NTokOk_identifier (s : Scanner) : NTokOk s (identifier false s) := by
  obtain ⟨t, s', h1, h2, h3⟩ := identifier_props s
  refine ⟨t, s', h1, h2, ?_⟩
  intro h
  exact absurd h h3

theorem next_token_dispatch_props
    (recur : Scanner → Option (Token × Scanner)) (c : Char) (s1 : Scanner)
    (hrec : ∀ s', s'.rest.length + 2 ≤ s1.rest.length + 1 →
      NTokOk s' (recur s')) :
    NTokOk s1 (next_token_dispatch false recur c s1) := by
  delta next_token_dispatch
  by_cases h1 : c = '('
  · rw [if_pos h1]; exact NTokOk_simple (by decide) s1
  rw [if_neg h1]
  by_cases h2 : c = ')'
  · rw [if_pos h2]; exact NTokOk_simple (by decide) s1
  rw [if_neg h2]
  by_cases h3 : c = '{'
  · rw [if_pos h3]; exact NTokOk_simple (by decide) s1
  rw [if_neg h3]
  by_cases h4 : c = '}'
  · rw [if_pos h4]; exact NTokOk_simple (by decide) s1
  rw [if_neg h4]
  by_cases h5 : c = '['
  · rw [if_pos h5]; exact NTokOk_simple (by decide) s1
  rw [if_neg h5]
  by_cases h6 : c = ']'
  · rw [if_pos h6]; exact NTokOk_simple (by decide) s1
  rw [if_neg h6]
  by_cases h7 : c = ';'
  · rw [if_pos h7]; exact NTokOk_simple (by decide) s1
  rw [if_neg h7]
  by_cases h8 : c = ','
  · rw [if_pos h8]; exact NTokOk_simple (by decide) s1
  rw [if_neg h8]
  by_cases h9 : c = ':'
  · rw [if_pos h9]; exact NTokOk_simple (by decide) s1
  rw [if_neg h9]
  by_cases h10 : c = '+'
  · rw [if_pos h10]
    split <;> next s2 heq =>
      (obtain rfl : s2 = (match_char s1 '=').2 := (congrArg Prod.snd heq).symm
       exact NTokOk_mono (NTokOk_simple (by decide) _) (match_char_source _ _))
  rw [if_neg h10]
  by_cases h11 : c = '-'
  · rw [if_pos h11]
    split <;> next s2 heq =>
      (obtain rfl : s2 = (match_char s1 '=').2 := (congrArg Prod.snd heq).symm
       exact NTokOk_mono (NTokOk_simple (by decide) _) (match_char_source _ _))
  rw [if_neg h11]
  by_cases h12 : c = '*'
  · rw [if_pos h12]
    split <;> next s2 heq =>
      (obtain rfl : s2 = (match_char s1 '=').2 := (congrArg Prod.snd heq).symm
       exact NTokOk_mono (NTokOk_simple (by decide) _) (match_char_source _ _))
  rw [if_neg h12]
  by_cases h13 : c = '/'
  · rw [if_pos h13]
    split
    · -- line comment
      next s2 heq =>
      obtain rfl : s2 = (match_char s1 '/').2 := (congrArg Prod.snd heq).symm
      have hl : s1.rest = '/' :: (match_char s1 '/').2.rest :=
        (match_char_true_rest heq).1
      have hlen2 : (single_line_comment (match_char s1 '/').2).rest.length + 2 ≤
          s1.rest.length + 1 := by
        have h1 := single_line_comment_len (match_char s1 '/').2
        have h2 : s1.rest.length = (match_char s1 '/').2.rest.length + 1 := by
          rw [hl]; rfl
        omega
      refine NTokOk_mono (hrec _ hlen2) ?_
      rw [single_line_comment_source, match_char_source]
    · next s2 heq =>
      obtain rfl : s1 = s2 := (match_char_false_eq heq).symm
      split
      · -- block comment
        next s3 heq2 =>
        obtain rfl : s3 = (match_char s1 '*').2 := (congrArg Prod.snd heq2).symm
        have hl : s1.rest = '*' :: (match_char s1 '*').2.rest :=
          (match_char_true_rest heq2).1
        have hlen3 : s1.rest.length = (match_char s1 '*').2.rest.length + 1 := by
          rw [hl]; rfl
        split
        · next e s4 heq3 =>
          obtain rfl : s4 = (block_comment (match_char s1 '*').2).2 := by
            rw [heq3]
          refine NTokOk_mono (NTokOk_error _ e) ?_
          rw [block_comment_source, match_char_source]
        · next s4 heq3 =>
          obtain rfl : s4 = (block_comment (match_char s1 '*').2).2 := by
            rw [heq3]
          have hlen4 := block_comment_len (s := (match_char s1 '*').2)
          refine NTokOk_mono (hrec _ (by omega)) ?_
          rw [block_comment_source, match_char_source]
      · next s3 heq2 =>
        obtain rfl : s1 = s3 := (match_char_false_eq heq2).symm
        split <;> next s4 heq3 =>
          (obtain rfl : s4 = (match_char s1 '=').2 := (congrArg Prod.snd heq3).symm
           exact NTokOk_mono (NTokOk_simple (by decide) _) (match_char_source _ _))
  rw [if_neg h13]
  by_cases h14 : c = '='
  · rw [if_pos h14]
    split <;> next s2 heq =>
      (obtain rfl : s2 = (match_char s1 '=').2 := (congrArg Prod.snd heq).symm
       exact NTokOk_mono (NTokOk_simple (by decide) _) (match_char_source _ _))
  rw [if_neg h14]
  by_cases h15 : c = '!'
  · rw [if_pos h15]
    split <;> next s2 heq =>
      (obtain rfl : s2 = (match_char s1 '=').2 := (congrArg Prod.snd heq).symm
       exact NTokOk_mono (NTokOk_simple (by decide) _) (match_char_source _ _))
  rw [if_neg h15]
  by_cases h16 : c = '<'
  · rw [if_pos h16]
    split <;> next s2 heq =>
      (obtain rfl : s2 = (match_char s1 '=').2 := (congrArg Prod.snd heq).symm
       exact NTokOk_mono (NTokOk_simple (by decide) _) (match_char_source _ _))
  rw [if_neg h16]
  by_cases h17 : c = '>'
  · rw [if_pos h17]
    split <;> next s2 heq =>
      (obtain rfl : s2 = (match_char s1 '=').2 := (congrArg Prod.snd heq).symm
       exact NTokOk_mono (NTokOk_simple (by decide) _) (match_char_source _ _))
  rw [if_neg h17]
  by_cases h18 : c = '&'
  · rw [if_pos h18]
    split
    · next s2 heq =>
      obtain rfl : s2 = (match_char s1 '&').2 := (congrArg Prod.snd heq).symm
      exact NTokOk_mono (NTokOk_simple (by decide) _) (match_char_source _ _)
    · next s2 heq =>
      obtain rfl : s2 = (match_char s1 '&').2 := (congrArg Prod.snd heq).symm
      exact NTokOk_mono (NTokOk_error _ _) (match_char_source _ _)
  rw [if_neg h18]
  by_cases h19 : c = '|'
  · rw [if_pos h19]
    split
    · next s2 heq =>
      obtain rfl : s2 = (match_char s1 '|').2 := (congrArg Prod.snd heq).symm
      exact NTokOk_mono (NTokOk_simple (by decide) _) (match_char_source _ _)
    · next s2 heq =>
      obtain rfl : s2 = (match_char s1 '|').2 := (congrArg Prod.snd heq).symm
      exact NTokOk_mono (NTokOk_error _ _) (match_char_source _ _)
  rw [if_neg h19]
  by_cases h20 : c = '"'
  · rw [if_pos h20]
    exact NTokOk_string s1
  rw [if_neg h20]
  by_cases h21 : c.isDigit = true
  · rw [if_pos h21]
    exact NTokOk_number s1
  rw [if_neg h21]
  by_cases h22 : is_identifier_start c = true
  · rw [if_pos h22]
    exact NTokOk_identifier s1
  rw [if_neg h22]
  exact NTokOk_error s1 _

theorem next_token_body_props
    (recur : Scanner → Option (Token × Scanner)) (s0 : Scanner)
    (hrec : ∀ s', s'.rest.length + 2 ≤ s0.rest.length →
      NTokOk s' (recur s')) :
    NTokOk s0 (next_token_body false recur s0) := by
  unfold next_token_body
  dsimp only
  split
  · next hend =>
    rw [make_token_false, with_state_some]
    refine ⟨_, _, rfl, ?_, ?_⟩
    · show (begin_token (skip_whitespace s0)).source = s0.source
      rw [begin_token_source, skip_whitespace_source]
    · intro _
      show (begin_token (skip_whitespace s0)).rest = []
      rw [is_at_end, peek, Option.isNone_iff_eq_none,
          List.head?_eq_none_iff] at hend
      exact hend
  · next hend =>
    rw [is_at_end, peek, Option.isNone_iff_eq_none,
        List.head?_eq_none_iff] at hend
    split
    · next heqadv =>
      exfalso
      rcases hr : (begin_token (skip_whitespace s0)).rest with _ | ⟨d, ds⟩
      · exact hend hr
      · have := advance_fst_some hr
        rw [heqadv] at this
        simp at this
    · next c s1 heqadv =>
      obtain rfl : s1 = (advance (begin_token (skip_whitespace s0))).2 := by
        rw [heqadv]
      rcases hr : (begin_token (skip_whitespace s0)).rest with _ | ⟨d, ds⟩
      · exact absurd hr hend
      · have hlen1 : (advance (begin_token (skip_whitespace s0))).2.rest.length
            + 1 ≤ s0.rest.length := by
          rw [advance_rest_tail, hr]
          have h1 := skip_whitespace_len s0
          have h2 : (begin_token (skip_whitespace s0)).rest =
              (skip_whitespace s0).rest := begin_token_rest _
          rw [h2] at hr
          rw [hr] at h1
          simp only [List.tail_cons]
          simp only [List.length_cons] at h1
          omega
        have hsrc1 : (advance (begin_token (skip_whitespace s0))).2.source =
            s0.source := by
          rw [advance_source, begin_token_source, skip_whitespace_source]
        refine NTokOk_mono ?_ hsrc1
        apply next_token_dispatch_props
        intro s' hlen'
        exact hrec s' (by omega)

theorem ntf_false_props : ∀ (f : Nat) (s0 : Scanner), s0.rest.length < f →
    NTokOk s0 (next_token_fuel false f s0) := by
  intro f
  induction f with
  | zero => intro s0 h; exact absurd h (Nat.not_lt_zero _)
  | succ f ih =>
    intro s0 hlen
    show NTokOk s0 (next_token_body false (next_token_fuel false f) s0)
    apply next_token_body_props
    intro s' hlen'
    exact ih s' (by omega)

/-- The three guarantees of `next_token` itself (with wrapping, i.e.
release-build, `usize` arithmetic). -/
theorem next_token_false_props (s : Scanner) :
    NTokOk s (next_token false s) :=
  ntf_false_props (s.rest.length + 1) s (by omega)

theorem usize_sub_val_of_le {a b : Nat} (h : b ≤ a) :
    usize_sub_val a b = a - b := by
  unfold usize_sub_val
  rw [if_pos h]

/-- On a character that is none of the dispatch literals, `next_token`'s
dispatch falls through to the digit / identifier / invalid-character
classification. -/
theorem dispatch_other (recur : Scanner → Option (Token × Scanner))
    {c : Char} (s1 : Scanner)
    (hne : c ≠ '(' ∧ c ≠ ')' ∧ c ≠ '{' ∧ c ≠ '}' ∧ c ≠ '[' ∧ c ≠ ']' ∧
      c ≠ ';' ∧ c ≠ ',' ∧ c ≠ ':' ∧ c ≠ '+' ∧ c ≠ '-' ∧ c ≠ '*' ∧ c ≠ '/' ∧
      c ≠ '=' ∧ c ≠ '!' ∧ c ≠ '<' ∧ c ≠ '>' ∧ c ≠ '&' ∧ c ≠ '|' ∧ c ≠ '"') :
    next_token_dispatch false recur c s1 =
      if c.isDigit then number false s1
      else if is_identifier_start c then identifier false s1
      else with_state s1 (error_token false s1 (.InvalidCharacter c)) := by
  obtain ⟨n1, n2, n3, n4, n5, n6, n7, n8, n9, n10, n11, n12, n13, n14, n15,
          n16, n17, n18, n19, n20⟩ := hne
  delta next_token_dispatch
  rw [if_neg n1, if_neg n2, if_neg n3, if_neg n4, if_neg n5, if_neg n6,
      if_neg n7, if_neg n8, if_neg n9, if_neg n10, if_neg n11, if_neg n12,
      if_neg n13, if_neg n14, if_neg n15, if_neg n16, if_neg n17, if_neg n18,
      if_neg n19, if_neg n20]

/-- When the scanner sits on a non-whitespace, non-newline character,
`next_token` skips nothing, records the token start, consumes the character
and dispatches on it. -/
theorem next_token_cons {s : Scanner} {c : Char} {cs : List Char}
    (hr : s.rest = c :: cs)
    (hnws : (c == ' ' || c == '\t' || c == '\r') = false) (hnl : c ≠ '\n') :
    next_token false s =
      next_token_dispatch false (next_token_fuel false s.rest.length) c
        { s with start := s.current, rest := cs,
                 current := s.current + c.utf8Size, column := s.column + 1 } := by
  show next_token_fuel false (s.rest.length + 1) s = _
  simp only [next_token_fuel]
  unfold next_token_body
  dsimp only
  have hskip : skip_whitespace s = s := by
    unfold skip_whitespace
    rw [hr]
    simp only [consume_while, hnws]
    rfl
  rw [hskip]
  have hbrest : (begin_token s).rest = c :: cs := by rw [begin_token_rest, hr]
  have hend : is_at_end (begin_token s) = false := by
    rw [is_at_end, peek, hbrest]
    rfl
  rw [hend]
  simp only [Bool.false_eq_true, if_false, reduceIte]
  rw [advance_cons hbrest hnl]
  rfl

end Scanner

theorem isDigit_ne_nl {c : Char} (h : c.isDigit = true) : c ≠ '\n' :=
  fun hh => absurd (hh ▸ h) (by decide)

theorem parseI64_digits (w : List Char) (hw : w ≠ [])
    (hall : w.all Char.isDigit = true) :
    parseI64 (String.mk w) =
      if digits_val w ≤ 9223372036854775807 then some (digits_val w)
      else none := by
  unfold parseI64 digits_val
  dsimp only
  rw [if_pos (show (String.mk w).data ≠ [] ∧ (String.mk w).data.all Char.isDigit
        from ⟨hw, hall⟩)]
  by_cases h : w.foldl (fun a c => a * 10 + (c.toNat - 48)) 0 ≤
      9223372036854775807
  · rw [if_pos h, if_pos (by exact_mod_cast h)]
  · rw [if_neg h, if_neg (by omega)]

namespace Scanner

theorem next_token_of_nil {s : Scanner} (h : s.rest = []) :
    ∃ t s', next_token false s = some (t, s') ∧ t.token_type = .EndOfFile := by
  unfold next_token
  rw [h]
  simp only [List.length_nil, Nat.zero_add, next_token_fuel]
  unfold next_token_body
  dsimp only
  have hskip : skip_whitespace s = s := by
    unfold skip_whitespace
    rw [h]
    rfl
  rw [hskip]
  rw [if_pos (show is_at_end (begin_token s) = true by
        rw [is_at_end, peek, begin_token_rest, h]; rfl)]
  rw [make_token_false, with_state_some]
  exact ⟨_, _, rfl, rfl⟩

end Scanner

/-- C1 (corrected): on the input `99999999999999999999` — a syntactically
valid integer literal whose magnitude exceeds the 32-bit range —
`next_token` produces an error token whose message denotes malformed-number,
not integer-out-of-range: `lexeme.parse::<i64>()` itself fails before the
32-bit range check is reached. -/
theorem C1_i64_overflow_counterexample :
    (Scanner.next_token false
        (Scanner.new "99999999999999999999".toList)).map Prod.fst =
      some (Token.error "malformed number: '99999999999999999999'" 1 1) ∧
    "malformed number: '99999999999999999999'" ≠
      "integer literal out of range: 99999999999999999999" :=
  ⟨by rfl, by decide⟩

/-- C1 (amended): for every maximal digit run (not followed by a digit or a
`'.'`) scanned from any coherent scanner state, `next_token` produces: an
int-literal token whose value is exactly the denoted number when it lies in
`[-2147483648, 2147483647]`; an error token whose message denotes
integer-out-of-range when the number exceeds that range but still fits in
a signed 64-bit integer; and an error token whose message denotes
malformed-number for even larger magnitudes (where `parse::<i64>()` fails
first). -/
theorem C1_int_literal_amended :
    ∀ (d : Char) (ds tail : List Char) (s : Scanner),
      Scanner.Valid s →
      s.rest = (d :: ds) ++ tail →
      (d :: ds).all Char.isDigit = true →
      head_sat (fun c => !(c.isDigit || c == '.')) tail = true →
      ∃ s₂, Scanner.next_token false s =
        some (int_lit_result (d :: ds) s.line s.column, s₂) := by
  intro d ds tail s hv hr hw htail
  simp only [List.all_cons, Bool.and_eq_true] at hw
  obtain ⟨hd, hds⟩ := hw
  have hds' : ∀ x ∈ ds, x.isDigit = true := by
    intro x hx
    exact List.all_eq_true.mp hds x hx
  obtain ⟨n1, n2, n3, n4, n5, n6, n7, n8, n9, n10, n11, n12, n13, n14, n15,
          n16, n17, n18, n19, n20, nsp, ntb, ncr, nnl⟩ := digit_ne_dispatch hd
  have hnws : (d == ' ' || d == '\t' || d == '\r') = false := by
    simp [nsp, ntb, ncr]
  have hr' : s.rest = d :: (ds ++ tail) := by rw [hr]; rfl
  rw [Scanner.next_token_cons hr' hnws nnl]
  rw [Scanner.dispatch_other _ _ ⟨n1, n2, n3, n4, n5, n6, n7, n8, n9, n10,
      n11, n12, n13, n14, n15, n16, n17, n18, n19, n20⟩]
  rw [if_pos hd]
  unfold Scanner.number
  rw [usize_sub_false]
  simp only [Option.some_bind]
  have htail2 : head_sat (fun c => !Char.isDigit c) tail = true := by
    cases tail with
    | nil => rfl
    | cons a as =>
      simp only [head_sat, Bool.not_eq_true', Bool.or_eq_false_iff] at htail ⊢
      exact htail.1
  rw [Scanner.consume_run Char.isDigit ds tail _ rfl
      (fun x hx => ⟨hds' x hx, isDigit_ne_nl (hds' x hx)⟩) htail2]
  dsimp only
  have hdot : ¬ ((⟨s.source, tail, s.line, s.column + 1 + ds.length, s.current,
      s.current + d.utf8Size + utf8_len ds⟩ : Scanner).peek = some '.') := by
    unfold Scanner.peek
    cases tail with
    | nil => simp
    | cons a as =>
      simp only [head_sat, Bool.not_eq_true', Bool.or_eq_false_iff] at htail
      have : a ≠ '.' := by
        intro hh
        rw [hh] at htail
        exact absurd htail.2 (by decide)
      simp [this]
  rw [if_neg hdot]
  have hdsz : d.utf8Size = 1 := isDigit_utf8Size hd
  have hlends : utf8_len ds = ds.length :=
    utf8_len_ones (fun c hc => isDigit_utf8Size (hds' c hc))
  have hslice : Scanner.sliceLexeme (⟨s.source, tail, s.line,
      s.column + 1 + ds.length, s.current,
      s.current + d.utf8Size + utf8_len ds⟩ : Scanner) = String.mk (d :: ds) := by
    unfold Scanner.sliceLexeme
    dsimp only
    congr 1
    rw [← hv, hr]
    have harith : s.current + d.utf8Size + utf8_len ds - s.current =
        utf8_len (d :: ds) := by
      simp only [utf8_len]
      omega
    rw [harith]
    exact take_bytes_append (d :: ds) tail
  rw [hslice]
  rw [parseI64_digits (d :: ds) (by simp) (by simp [hd, hds])]
  have hsc : usize_sub_val (s.column + 1) 1 = s.column := by
    rw [Scanner.usize_sub_val_of_le (by omega), Nat.add_sub_cancel]
  have e1 : usize_sub_val (s.current + d.utf8Size + utf8_len ds) s.current =
      1 + ds.length := by
    rw [Scanner.usize_sub_val_of_le (by omega), hdsz, hlends]
    omega
  have e2 : usize_sub_val (s.column + 1 + ds.length) (1 + ds.length) =
      s.column := by
    rw [Scanner.usize_sub_val_of_le (by omega)]
    omega
  have hnn : (0 : Int) ≤ digits_val (d :: ds) := by
    unfold digits_val
    omega
  by_cases h64 : digits_val (d :: ds) ≤ 9223372036854775807
  · rw [if_pos h64]
    dsimp only
    by_cases h32 : digits_val (d :: ds) ≤ 2147483647
    · rw [if_neg (show ¬(digits_val (d :: ds) < -2147483648 ∨
          digits_val (d :: ds) > 2147483647) by omega)]
      rw [hsc]
      unfold int_lit_result
      rw [if_pos h32]
      exact ⟨_, rfl⟩
    · rw [if_pos (show digits_val (d :: ds) < -2147483648 ∨
          digits_val (d :: ds) > 2147483647 by omega)]
      rw [Scanner.with_state_error_false]
      dsimp only
      rw [e1, e2]
      unfold int_lit_result
      rw [if_neg h32, if_pos h64]
      exact ⟨_, rfl⟩
  · rw [if_neg h64]
    dsimp only
    rw [Scanner.with_state_error_false]
    dsimp only
    rw [e1, e2]
    unfold int_lit_result
    rw [if_neg (by omega : ¬ digits_val (d :: ds) ≤ 2147483647), if_neg h64]
    exact ⟨_, rfl⟩

/-- Witness for C1: the literal `42` scanned from a fresh scanner yields
exactly the int-literal token carrying 42. -/
theorem C1_int_literal_witness :
    ∃ s₂, Scanner.next_token false (Scanner.new "42".toList) =
      some (int_lit_result ('4' :: ['2']) 1 1, s₂) :=
  C1_int_literal_amended '4' ['2'] [] (Scanner.new "42".toList)
    (by rfl) (by rfl) (by rfl) (by rfl)

/-- C2 (code bug): scanning `/* unterminated` does NOT yield end-of-input
directly — the first `next_token` call returns an error token rendering
the unterminated-block-comment error, and only the second returns
end-of-input.  The repository's own test `test_unterminated_comment`
asserts end-of-input for the first token and therefore fails. -/
theorem C2_unterminated_comment_eval :
    Scanner.scan_tokens false 2 (Scanner.new "/* unterminated".toList) =
      some [Token.error "unterminated block comment" 1 1,
            Token.new .EndOfFile "" 1 16 .NoneV] := by rfl

/-- C3 (code bug): scanning `"if x\n123"` yields `if` at (1,1) and `x` at
(1,4) as claimed, but then an invalid-character error token for the newline
(at line 2, column 0: consuming the newline resets the column to 1, and the
error token subtracts the one-byte span), and only then the int-literal
`123` at (2,1): `skip_whitespace` does not treat `'\n'` as whitespace,
contradicting the repository's own `test_position_tracking`. -/
theorem C3_newline_token_eval :
    Scanner.scan_tokens false 5 (Scanner.new "if x\n123".toList) =
      some [Token.new .If "if" 1 1 .NoneV,
            Token.new .Identifier "x" 1 4 .NoneV,
            Token.error "invalid character: '\n'" 2 0,
            Token.new .IntLiteral "123" 2 1 (.Integer 123),
            Token.new .EndOfFile "" 2 4 .NoneV] := by rfl

/-- C4 (confirmed): for every coherent scanner state, `peek_token` returns
exactly the token the next `next_token` call would return, and leaves the
scanner in exactly the entry state (so any number of `peek_token` calls
return the same token and never advance the observable position). -/
theorem C4_peek_token_is_next_token : ∀ s : Scanner, Scanner.Valid s →
    Scanner.peek_token false s =
      (Scanner.next_token false s).map (fun p => (p.1, s)) := by
  intro s hv
  obtain ⟨t, s', hsome, hsrc, _⟩ := Scanner.next_token_false_props s
  unfold Scanner.peek_token
  rw [hsome]
  have hrestore : Scanner.restore s' (Scanner.save s) = s := by
    unfold Scanner.restore Scanner.save
    obtain ⟨src, rst, ln, col, st, cur⟩ := s
    dsimp only at hsrc hv ⊢
    unfold Scanner.Valid at hv
    dsimp only at hv
    rw [hsrc, ← hv]
  simp [hrestore]

/-- Witness for C4: a fresh scanner over `"x%"` is coherent, and peeking
equals scanning-and-restoring on it. -/
theorem C4_peek_token_witness :
    Scanner.peek_token false (Scanner.new "x%".toList) =
      (Scanner.next_token false (Scanner.new "x%".toList)).map
        (fun p => (p.1, Scanner.new "x%".toList)) :=
  C4_peek_token_is_next_token (Scanner.new "x%".toList) (by rfl)

/-- C5 (corrected, counterexample): with the overflow checks of a debug
build (`checked := true`), scanning `"/*\n"` panics — the unterminated
block comment spans a newline, so the error token's column computation
`self.column - (self.current - self.start)` underflows `usize`
(`1 - 3`).  The model returns `none` exactly where the Rust code would
raise the arithmetic-overflow panic, so `next_token` does abort on this
malformed input. -/
theorem C5_debug_underflow_counterexample :
    Scanner.next_token true (Scanner.new "/*\n".toList) = none := by rfl

/-- C5 (amended): with the wrapping `usize` arithmetic of a release build
(`checked := false`), every call of `next_token`, on every scanner state,
returns exactly one token; in particular the two internal `unwrap` calls
(modelled as `Option` binds) are unreachable. -/
theorem C5_total_with_wrapping : ∀ s : Scanner,
    (Scanner.next_token false s).isSome := by
  intro s
  obtain ⟨t, s', h, _, _⟩ := Scanner.next_token_false_props s
  rw [h]
  rfl

/-- C6 (confirmed): nested block comments close correctly and contribute no
token: scanning `/* a /* b */ c */ x` yields exactly the identifier token
`x` and then end-of-input. -/
theorem C6_nested_block_comment :
    Scanner.scan_tokens false 2 (Scanner.new "/* a /* b */ c */ x".toList) =
      some [Token.new .Identifier "x" 1 19 .NoneV,
            Token.new .EndOfFile "" 1 20 .NoneV] := by rfl

/-- C7 (confirmed): for every maximal run of letters/digits/underscores
(started by a letter or underscore, scanned from any coherent scanner
state), `next_token` yields the keyword's token kind on an exact
keyword-table match (`true`/`false` additionally carrying a boolean
literal, other keywords none), otherwise an identifier token — unless the
run exceeds 255 bytes, in which case a malformed-number error token is
produced instead. -/
theorem C7_identifier_keyword :
    ∀ (c : Char) (w tail : List Char) (s : Scanner),
      Scanner.Valid s →
      s.rest = (c :: w) ++ tail →
      is_identifier_start c = true →
      w.all is_identifier_continue = true →
      head_sat (fun x => !is_identifier_continue x) tail = true →
      ∃ s₂, Scanner.next_token false s =
        some (ident_result (c :: w) s.line s.column, s₂) := by
  intro c w tail s hv hr hc hw htail
  have hw' : ∀ x ∈ w, is_identifier_continue x = true := by
    intro x hx
    exact List.all_eq_true.mp hw x hx
  obtain ⟨n1, n2, n3, n4, n5, n6, n7, n8, n9, n10, n11, n12, n13, n14, n15,
          n16, n17, n18, n19, n20, nsp, ntb, ncr, nnl⟩ :=
    ident_start_ne_dispatch hc
  have hnws : (c == ' ' || c == '\t' || c == '\r') = false := by
    simp [nsp, ntb, ncr]
  have hr' : s.rest = c :: (w ++ tail) := by rw [hr]; rfl
  rw [Scanner.next_token_cons hr' hnws nnl]
  rw [Scanner.dispatch_other _ _ ⟨n1, n2, n3, n4, n5, n6, n7, n8, n9, n10,
      n11, n12, n13, n14, n15, n16, n17, n18, n19, n20⟩]
  rw [if_neg (show ¬ (c.isDigit = true) by simp [ident_start_not_digit hc])]
  rw [if_pos hc]
  unfold Scanner.identifier
  rw [usize_sub_false]
  simp only [Option.some_bind]
  rw [Scanner.consume_run is_identifier_continue w tail _ rfl
      (fun x hx => ⟨hw' x hx, ident_continue_ne_nl (hw' x hx)⟩) htail]
  dsimp only
  have hcsz : c.utf8Size = 1 :=
    ident_continue_utf8Size (ident_start_continue hc)
  have hlenw : utf8_len w = w.length :=
    utf8_len_ones (fun x hx => ident_continue_utf8Size (hw' x hx))
  have hslice : Scanner.sliceLexeme (⟨s.source, tail, s.line,
      s.column + 1 + w.length, s.current,
      s.current + c.utf8Size + utf8_len w⟩ : Scanner) = String.mk (c :: w) := by
    unfold Scanner.sliceLexeme
    dsimp only
    congr 1
    rw [← hv, hr]
    have harith : s.current + c.utf8Size + utf8_len w - s.current =
        utf8_len (c :: w) := by
      simp only [utf8_len]
      omega
    rw [harith]
    exact take_bytes_append (c :: w) tail
  rw [hslice]
  have hsc : usize_sub_val (s.column + 1) 1 = s.column := by
    rw [Scanner.usize_sub_val_of_le (by omega), Nat.add_sub_cancel]
  have e1 : usize_sub_val (s.current + c.utf8Size + utf8_len w) s.current =
      1 + w.length := by
    rw [Scanner.usize_sub_val_of_le (by omega), hcsz, hlenw]
    omega
  have e2 : usize_sub_val (s.column + 1 + w.length) (1 + w.length) =
      s.column := by
    rw [Scanner.usize_sub_val_of_le (by omega)]
    omega
  unfold ident_result
  rcases hlook : keywords.lookup (String.mk (c :: w)) with _ | tt
  · dsimp only
    by_cases hbig : string_byte_len (String.mk (c :: w)) > 255
    · rw [if_pos hbig, Scanner.with_state_error_false]
      dsimp only
      rw [e1, e2, if_pos hbig]
      exact ⟨_, rfl⟩
    · rw [if_neg hbig, if_neg hbig, hsc]
      exact ⟨_, rfl⟩
  · dsimp only
    rw [hsc]
    exact ⟨_, rfl⟩

/-- Witness for C7: the run `if` scanned from a fresh scanner yields the
`if` keyword token (and `ident_result` evaluates to exactly that). -/
theorem C7_identifier_keyword_witness :
    ∃ s₂, Scanner.next_token false (Scanner.new "if".toList) =
      some (ident_result ('i' :: ['f']) 1 1, s₂) :=
  C7_identifier_keyword 'i' ['f'] [] (Scanner.new "if".toList)
    (by rfl) (by rfl) (by rfl) (by rfl) (by rfl)

/-- C8 (confirmed): a lone `&` yields an invalid-character error token
reporting that character, `&&` yields the logical-and operator token, and
the same pattern holds for `|` and `||`. -/
theorem C8_doubled_operators :
    first_token "&" = some (Token.error "invalid character: '&'" 1 1) ∧
    first_token "&&" = some (Token.new .AndAnd "&&" 1 1 .NoneV) ∧
    first_token "|" = some (Token.error "invalid character: '|'" 1 1) ∧
    first_token "||" = some (Token.new .OrOr "||" 1 1 .NoneV) :=
  ⟨by rfl, by rfl, by rfl, by rfl⟩

/-- C9 (code bug): scanning `%` yields an invalid-character error token,
not a `Percent` operator token — the dispatch of `next_token` has no arm
for `'%'`, although `TokenType::Percent` exists and the repository's own
`test_operators` expects it. -/
theorem C9_percent_eval :
    first_token "%" = some (Token.error "invalid character: '%'" 1 1) := by
  rfl

/-- C10 (confirmed): whenever `next_token` returns an end-of-input token,
every further call returns an end-of-input token again rather than
failing. -/
theorem C10_eof_idempotent : ∀ (s : Scanner) (t : Token) (s' : Scanner),
    Scanner.next_token false s = some (t, s') →
    t.token_type = .EndOfFile →
    ∃ t' s'', Scanner.next_token false s' = some (t', s'') ∧
      t'.token_type = .EndOfFile := by
  intro s t s' hsome heof
  obtain ⟨t0, s0', h1, h2, h3⟩ := Scanner.next_token_false_props s
  rw [hsome] at h1
  injection h1 with h1
  have ht : t = t0 := congrArg Prod.fst h1
  have hs : s' = s0' := congrArg Prod.snd h1
  subst ht
  subst hs
  exact Scanner.next_token_of_nil (h3 heof)

/-- Witness for C10: the empty input returns end-of-input, and the next
call returns end-of-input again. -/
theorem C10_eof_idempotent_witness :
    ∃ t' s'', Scanner.next_token false
        (⟨[], [], 1, 1, 0, 0⟩ : Scanner) = some (t', s'') ∧
      t'.token_type = .EndOfFile :=
  C10_eof_idempotent (Scanner.new []) (Token.new .EndOfFile "" 1 1 .NoneV)
    (⟨[], [], 1, 1, 0, 0⟩ : Scanner) (by rfl) (by rfl)
